import Mathlib

/-!
Verification of the dma-fence / dma-buf-mgr synchronization core.

The definitions below are a shallow embedding of the C sources:
  * the fence layer of src/unnamed/part_003 (dma_fence_signal,
    dma_fence_add_callback, dma_fence_wait_timeout);
  * the reservation layer of src/drivers/base/dma-buf-mgr.c
    (dmabufmgr_reserve_buffers, dmabufmgr_backoff_reservation_locked,
    dmabufmgr_fence_buffer_objects).
Fences and callbacks are identified by natural numbers; machine error
codes are kept as the negated Linux constants.  The variant operation
table is reduced to the one observable input the embedded paths consume:
the boolean result of the enable_signaling hook.
-/

namespace DmaSync

/-- Linux error number EINVAL (returned negated). -/
def EINVAL : Int := 22

/-- Linux error number ENOENT (returned negated). -/
def ENOENT : Int := 2

/-- Linux error number ERESTARTSYS (returned negated). -/
def ERESTARTSYS : Int := 512

/-- Linux error number EBUSY (returned negated). -/
def EBUSY : Int := 16

/-- Linux error number EAGAIN (returned negated). -/
def EAGAIN : Int := 11

/-- An entry on a fence's wait queue.  A `cb` entry was added by
dma_fence_add_callback: its wake function `__dma_fence_wake_func` removes the
entry from the queue when the fence is signaled.  A `thread` entry is the
stack-allocated waiter of dma_fence_wait_timeout: waking it does not remove
it, the blocked thread removes it itself after the wait loop. -/
inductive WaitEntry where
  | cb (id : Nat)
  | thread (id : Nat)
deriving DecidableEq

/-- Whether a wait-queue entry is a blocked-thread entry. -/
def WaitEntry.isThread : WaitEntry → Bool
  | .thread _ => true
  | .cb _ => false

/-- The per-fence state the embedded code reads and writes: the two flag
bits DMA_FENCE_FLAG_SIGNALED and DMA_FENCE_FLAG_NEED_SW_SIGNAL and the
event_queue contents (struct dma_fence in include/linux/dma-fence.h). -/
structure Fence where
  signaled : Bool
  needSw : Bool
  queue : List WaitEntry
deriving DecidableEq

/-- Result of the internal signal routine: the return code, the fence state
after the call, and the wait-queue entries that were woken. -/
structure SigRes where
  ret : Int
  fence : Fence
  woken : List WaitEntry
deriving DecidableEq

/-- Shallow embedding of __dma_fence_signal (src/unnamed/part_003 lines
86-95): an already-signaled fence yields -EINVAL untouched; otherwise the
SIGNALED bit is set and __wake_up_locked_key wakes every queued entry,
which removes the callback entries (their wake function does so) and
leaves the blocked-thread entries queued. -/
def __dma_fence_signal (f : Fence) : SigRes :=
  if f.signaled then ⟨-EINVAL, f, []⟩
  else ⟨0, { f with signaled := true, queue := f.queue.filter WaitEntry.isThread }, f.queue⟩

/-- Result of dma_fence_signal, whose fence argument may be NULL. -/
structure SigResO where
  ret : Int
  fence : Option Fence
  woken : List WaitEntry
deriving DecidableEq

/-- Shallow embedding of dma_fence_signal (src/unnamed/part_003 lines
107-121): a NULL fence yields -EINVAL, otherwise the locked internal
signal routine runs. -/
def dma_fence_signal : Option Fence → SigResO
  | none => ⟨-EINVAL, none, []⟩
  | some f =>
    let r := __dma_fence_signal f
    ⟨r.ret, some r.fence, r.woken⟩

/-- Observable events of the fence paths, in program order: invocation of
the variant's enable_signaling hook, invocation of the internal signal
routine, enqueuing of the caller's callback or waiter, and a
schedule_timeout sleep. -/
inductive FenceEvent where
  | enableSignaling
  | internalSignal
  | enqueue
  | sleep
deriving DecidableEq

/-- Result of dma_fence_add_callback: return code, fence state after the
call, and the trace of observable events in program order. -/
structure CbRes where
  ret : Int
  fence : Fence
  trace : List FenceEvent
deriving DecidableEq

/-- Shallow embedding of dma_fence_add_callback (src/unnamed/part_003 lines
194-239) for a non-NULL fence and function.  `hookRet` is the value the
variant's enable_signaling hook returns when invoked; `cbId` identifies the
callback being registered.  If neither flag is set the hook is invoked
outside the lock after setting NEED_SW_SIGNAL, and a false result signals
the fence internally; afterwards a signaled fence yields -ENOENT without
enqueuing, otherwise the callback is enqueued and 0 returned. -/
def dma_fence_add_callback (f : Fence) (cbId : Nat) (hookRet : Bool) : CbRes :=
  let step :=
    if !f.signaled && !f.needSw then
      let fa := { f with needSw := true }
      if hookRet then (fa, [FenceEvent.enableSignaling])
      else ((__dma_fence_signal fa).fence, [FenceEvent.enableSignaling, FenceEvent.internalSignal])
    else (f, [])
  if step.1.signaled then ⟨-ENOENT, step.1, step.2⟩
  else ⟨0, { step.1 with queue := step.1.queue ++ [WaitEntry.cb cbId] },
        step.2 ++ [FenceEvent.enqueue]⟩

/-- One iteration's worth of environment input to the wait loop of
dma_fence_wait_timeout: whether some other thread calls dma_fence_signal on
the fence while this thread sleeps, the value schedule_timeout returns
(remaining jiffies), and whether a thread-directed signal is pending when
the lock is re-acquired. -/
structure SleepStep where
  extSignal : Bool
  schedRet : Int
  sigPend : Bool
deriving DecidableEq

/-- Result of dma_fence_wait_timeout: return value, fence state after the
call, and the trace of observable events in program order. -/
structure WaitRes where
  ret : Int
  fence : Fence
  trace : List FenceEvent
deriving DecidableEq

/-- The enable_signaling invocation at the top of a wait-loop iteration
(src/unnamed/part_003 lines 348-352): when `enable` is set the hook runs,
and a false result signals the fence through dma_fence_signal; the second
component is the event trace of the step. -/
def hookStep (hookRet enable : Bool) (f : Fence) : Fence × List FenceEvent :=
  if enable then
    if hookRet then (f, [FenceEvent.enableSignaling])
    else ((__dma_fence_signal f).fence,
          [FenceEvent.enableSignaling, FenceEvent.internalSignal])
  else (f, [])

/-- The effect on the fence of another thread calling dma_fence_signal
while this thread sleeps in schedule_timeout. -/
def extStep (ext : Bool) (f : Fence) : Fence :=
  if ext then (__dma_fence_signal f).fence else f

/-- The budget after one iteration (src/unnamed/part_003 lines 354-358):
schedule_timeout's return value, demoted to -ERESTARTSYS when it is still
positive and an interruptible wait has a signal pending. -/
def nextRet (intr : Bool) (step : SleepStep) : Int :=
  if decide (0 < step.schedRet) && intr && step.sigPend then -ERESTARTSYS
  else step.schedRet

/-- Shallow embedding of the while loop of dma_fence_wait_timeout
(src/unnamed/part_003 lines 341-359).  One SleepStep is consumed per
iteration; `none` means the supplied environment ended while the loop
would have kept sleeping, which cannot happen on a trace of a terminating
execution.  `enable` is true when NEED_SW_SIGNAL was clear on entry, in
which case the first iteration invokes the enable_signaling hook outside
the lock and a false result signals the fence via dma_fence_signal. -/
def waitLoop (intr hookRet : Bool) :
    List SleepStep → Fence → Int → Bool → Option (Int × Fence × List FenceEvent)
  | [], f, ret, _ =>
    if f.signaled || !decide (0 < ret) then some (ret, f, []) else none
  | step :: rest, f, ret, enable =>
    if f.signaled || !decide (0 < ret) then some (ret, f, [])
    else
      match waitLoop intr hookRet rest
          (extStep step.extSignal (hookStep hookRet enable f).1)
          (nextRet intr step) false with
      | none => none
      | some (r, fz, tr) =>
        some (r, fz, (hookStep hookRet enable f).2 ++ FenceEvent.sleep :: tr)

/-- Shallow embedding of dma_fence_wait_timeout (src/unnamed/part_003 lines
315-367).  A negative timeout yields -EINVAL; a signaled fence returns the
whole timeout at once; an interruptible wait with a signal already pending
returns -ERESTARTSYS before enqueuing anything.  Otherwise NEED_SW_SIGNAL
is set if clear (remembering whether the hook still has to run), the
thread's waiter `tid` is enqueued, the loop runs, and the waiter is removed
again on exit. -/
def dma_fence_wait_timeout (f : Fence) (intr : Bool) (timeout : Int)
    (hookRet sigPend0 : Bool) (tid : Nat) (env : List SleepStep) : Option WaitRes :=
  if timeout < 0 then some ⟨-EINVAL, f, []⟩
  else if f.signaled then some ⟨timeout, f, []⟩
  else if intr && sigPend0 then some ⟨-ERESTARTSYS, f, []⟩
  else
    match waitLoop intr hookRet env
        { f with needSw := true, queue := f.queue ++ [WaitEntry.thread tid] }
        timeout (!f.needSw) with
    | none => none
    | some (r, fz, tr) =>
      some ⟨r, { fz with queue := fz.queue.erase (WaitEntry.thread tid) },
            FenceEvent.enqueue :: tr⟩

/-- Scan helper for hookPrecedesEnqueue: `seen` records whether an
enable_signaling event was passed already. -/
def hookScan (seen : Bool) : List FenceEvent → Bool
  | [] => true
  | FenceEvent.enableSignaling :: rest => hookScan true rest
  | FenceEvent.enqueue :: rest => seen && hookScan seen rest
  | _ :: rest => hookScan seen rest

/-- Checks that every enqueue event in a trace is strictly preceded by an
enable_signaling event, the ordering C6 requires. -/
def hookPrecedesEnqueue (tr : List FenceEvent) : Bool :=
  hookScan false tr

/-- Modelled from the spec: DMA_BUF_MAX_SHARED_FENCE is defined by the
dma-buf core header, which is not under src/.  Spec section 3 fixes it as
a small constant, e.g. 8, sizing the per-buffer shared-fence array and the
per-entry collected-fence array. -/
def DMA_BUF_MAX_SHARED_FENCE : Nat := 8

/-- The per-buffer state block the reservation manager consumes (spec
section 3; struct dma_buf fields used by dma-buf-mgr.c): the reserved
flag, the ticket stamped on it by the owning batch, the exclusive fence
slot and the ordered shared-fence set (whose length is
fence_shared_count).  Fences are identified by numbers. -/
structure DmaBuf where
  reserved : Bool
  ticket : Nat
  fence_excl : Option Nat
  fence_shared : List Nat
deriving DecidableEq

/-- A validation entry, struct dmabufmgr_validate
(include/linux/dma-buf-mgr.h): the buffer it names, the caller's shared or
exclusive intent, the internal reserved flag, and the collected fences
fences[0..num_fences). -/
structure Validate where
  bo : Nat
  shared : Bool
  reserved : Bool
  fences : List Nat
deriving DecidableEq

/-- The collected-fence count num_fences of an entry. -/
def Validate.num_fences (e : Validate) : Nat := e.fences.length

/-- The buffer map paired with the global dma_buf_reserve_counter that
stamps tickets. -/
structure MgrState where
  bufs : Nat → DmaBuf
  counter : Nat

/-- Pointwise update of the buffer map. -/
def updBuf (bufs : Nat → DmaBuf) (b : Nat) (v : DmaBuf) : Nat → DmaBuf :=
  fun x => if x = b then v else bufs x

/-- Shallow embedding of dmabufmgr_backoff_reservation_locked
(dma-buf-mgr.c lines 41-56): every entry whose reserved flag is set is
cleared together with its collected count, the buffer's reserved flag is
cleared and a wake_up_all on the buffer's event queue is recorded in the
returned wake list, in list order. -/
def dmabufmgr_backoff_reservation_locked (bufs : Nat → DmaBuf) :
    List Validate → (Nat → DmaBuf) × List Validate × List Nat
  | [] => (bufs, [], [])
  | e :: rest =>
    if e.reserved then
      ((dmabufmgr_backoff_reservation_locked
          (updBuf bufs e.bo { bufs e.bo with reserved := false }) rest).1,
       ⟨e.bo, e.shared, false, []⟩ ::
         (dmabufmgr_backoff_reservation_locked
           (updBuf bufs e.bo { bufs e.bo with reserved := false }) rest).2.1,
       e.bo :: (dmabufmgr_backoff_reservation_locked
         (updBuf bufs e.bo { bufs e.bo with reserved := false }) rest).2.2)
    else
      ((dmabufmgr_backoff_reservation_locked bufs rest).1,
       e :: (dmabufmgr_backoff_reservation_locked bufs rest).2.1,
       (dmabufmgr_backoff_reservation_locked bufs rest).2.2)

/-- Modelled from the spec: dma_buf_reserve_locked lives in the dma-buf
core, which is not under src/.  Spec section 4.2 step 3: a free buffer is
taken and stamped with the caller's ticket; a buffer already held by the
same ticket is a re-entrant success; a buffer held by a newer ticket makes
the caller wait and retry that buffer (the mgr's -EBUSY arm); a buffer
held by an older ticket makes the caller back off the whole batch (the
mgr's -EAGAIN arm).  Tickets are compared with 32-bit wraparound signed
arithmetic per spec section 6. -/
def dma_buf_reserve_locked (bo : DmaBuf) (val_seq : Nat) : Int × DmaBuf :=
  if !bo.reserved then (0, { bo with reserved := true, ticket := val_seq })
  else if bo.ticket == val_seq then (0, bo)
  else if (val_seq + 2 ^ 32 - bo.ticket % 2 ^ 32) % 2 ^ 32 ≥ 2 ^ 31 then (-EBUSY, bo)
  else (-EAGAIN, bo)

/-- Shallow embedding of the fence snapshot of dmabufmgr_reserve_buffers
(dma-buf-mgr.c lines 177-189): an exclusive-intent entry against a buffer
with shared fences collects exactly those; otherwise the buffer's
exclusive fence is collected if present. -/
def collectFences (e : Validate) (bo : DmaBuf) : List Nat :=
  if !e.shared && !bo.fence_shared.isEmpty then bo.fence_shared
  else
    match bo.fence_excl with
    | some g => [g]
    | none => []

/-- Outcome of a reserve call in the sequential embedding.  `blocked`
marks the -EBUSY / -EAGAIN arms, where the code waits for another batch's
buffer: a single-threaded model cannot resolve that wait. -/
inductive ReserveResult where
  | ok (st : MgrState) (list : List Validate) (wakes : List Nat)
  | err (code : Int) (st : MgrState) (list : List Validate) (wakes : List Nat)
  | blocked (bo : Nat)

/-- Shallow embedding of the per-entry loop of dmabufmgr_reserve_buffers
(dma-buf-mgr.c lines 139-190).  Each entry's buffer is reserved, the entry
is flagged, a shared-intent entry against a buffer already holding
DMA_BUF_MAX_SHARED_FENCE shared fences backs the whole batch off and fails
with -EINVAL, and otherwise the buffer's fences are snapshotted into the
entry.  `done` accumulates the processed prefix. -/
def reserveGo (val_seq : Nat) (bufs : Nat → DmaBuf) (done : List Validate) :
    List Validate → ReserveResult
  | [] => .ok ⟨bufs, val_seq⟩ done []
  | e :: rest =>
    if (dma_buf_reserve_locked (bufs e.bo) val_seq).1 == 0 then
      if e.shared && ((dma_buf_reserve_locked (bufs e.bo) val_seq).2.fence_shared.length
          == DMA_BUF_MAX_SHARED_FENCE) then
        match dmabufmgr_backoff_reservation_locked
            (updBuf bufs e.bo (dma_buf_reserve_locked (bufs e.bo) val_seq).2)
            (done ++ { e with reserved := true } :: rest) with
        | (bufs2, out2, wk2) => .err (-EINVAL) ⟨bufs2, val_seq⟩ out2 wk2
      else
        reserveGo val_seq (updBuf bufs e.bo (dma_buf_reserve_locked (bufs e.bo) val_seq).2)
          (done ++ [⟨e.bo, e.shared, true,
                     collectFences e (dma_buf_reserve_locked (bufs e.bo) val_seq).2⟩])
          rest
    else .blocked e.bo

/-- Shallow embedding of dmabufmgr_reserve_buffers (dma-buf-mgr.c lines
120-195): an empty list succeeds untouched; otherwise every entry's
reserved flag and collected count are cleared, a fresh ticket is drawn
from the global counter, and the per-entry loop runs. -/
def dmabufmgr_reserve_buffers (st : MgrState) (l : List Validate) : ReserveResult :=
  if l.isEmpty then .ok st l []
  else
    let l0 := l.map fun e => { e with reserved := false, fences := [] }
    reserveGo (st.counter + 1) st.bufs [] l0

/-- Shallow embedding of the first loop of dmabufmgr_fence_buffer_objects
(dma-buf-mgr.c lines 254-271) restricted to the buffer map: for every
exclusive-intent entry the buffer's shared fences are released and its
count zeroed, and the exclusive slot is cleared. -/
def commitClear (bufs : Nat → DmaBuf) : List Validate → Nat → DmaBuf
  | [] => bufs
  | e :: rest =>
    commitClear
      (if e.shared then bufs
       else updBuf bufs e.bo { bufs e.bo with fence_excl := none, fence_shared := [] })
      rest

/-- The per-entry fence installation plus unreserve of the commit loop
(dma-buf-mgr.c lines 278-284): append the new fence for a shared-intent
entry, or install it in the exclusive slot, then clear the buffer's
reserved flag (dma_buf_unreserve_locked is not under src/ and is modelled
from the spec, section 4.2 commit step 2: clear the buffer's reserved flag
and wake its event queue). -/
def installFence (f : Nat) (e : Validate) (bo : DmaBuf) : DmaBuf :=
  if e.shared then { bo with fence_shared := bo.fence_shared ++ [f], reserved := false }
  else { bo with fence_excl := some f, reserved := false }

/-- Shallow embedding of the second loop of dmabufmgr_fence_buffer_objects
(dma-buf-mgr.c lines 275-285): every entry installs the new fence — as an
appended shared fence or into the exclusive slot — and unreserves its
buffer; the wake of each buffer's event queue is recorded in the returned
list. -/
def commitInstall (f : Nat) (bufs : Nat → DmaBuf) :
    List Validate → (Nat → DmaBuf) × List Nat
  | [] => (bufs, [])
  | e :: rest =>
    ((commitInstall f (updBuf bufs e.bo (installFence f e (bufs e.bo))) rest).1,
     e.bo :: (commitInstall f (updBuf bufs e.bo (installFence f e (bufs e.bo))) rest).2)

/-- Shallow embedding of dmabufmgr_fence_buffer_objects (dma-buf-mgr.c
lines 244-289): a NULL fence or an empty list returns at once with
nothing modified; otherwise exclusive entries release the buffers' prior
fences, every entry's reserved flag is cleared, and under the reserve
lock the new fence is installed on every buffer, which is unreserved and
its waiters woken. -/
def dmabufmgr_fence_buffer_objects (fence : Option Nat) (l : List Validate)
    (st : MgrState) : MgrState × List Validate × List Nat :=
  match fence with
  | none => (st, l, [])
  | some f =>
    if l.isEmpty then (st, l, [])
    else
      let bufs1 := commitClear st.bufs l
      let l1 := l.map fun e => { e with reserved := false }
      let r := commitInstall f bufs1 l1
      (⟨r.1, st.counter⟩, l1, r.2)

/-! Theorems.  Each claim of the specification is settled below against the
definitions above. -/

/-- Conclusion proved for claim C1: signaling an unsignaled fence returns 0,
sets SIGNALED, wakes the whole wait queue (callback entries leave the queue,
thread entries stay and are woken); and any call on an already-signaled
fence — in particular every subsequent call — returns -EINVAL and leaves
flags and wait queue unchanged, waking nobody. -/
def C1Concl (f : Fence) : Prop :=
  dma_fence_signal (some f) =
    ⟨0, some { f with signaled := true, queue := f.queue.filter WaitEntry.isThread },
     f.queue⟩ ∧
  ∀ g : Fence, g.signaled = true → dma_fence_signal (some g) = ⟨-EINVAL, some g, []⟩

/-- C1: the first dma_fence_signal on an unsignaled fence sets the SIGNALED
flag, wakes every waiter queued on the fence's wait queue and returns
success (0); every subsequent call — the post state has SIGNALED set, so
the second conjunct applies to it — returns -EINVAL and leaves the fence's
flags and wait queue unchanged. -/
theorem C1_signal_transition (f : Fence) (h : f.signaled = false) : C1Concl f := by
  constructor
  · simp [dma_fence_signal, __dma_fence_signal, h]
  · intro g hg
    simp [dma_fence_signal, __dma_fence_signal, hg]

/-- Witness for C1 at a concrete unsignaled fence holding one callback and
one thread waiter. -/
theorem C1_signal_transition_witness :
    (⟨false, false, [WaitEntry.cb 1, WaitEntry.thread 2]⟩ : Fence).signaled = false ∧
    C1Concl ⟨false, false, [WaitEntry.cb 1, WaitEntry.thread 2]⟩ :=
  ⟨rfl, C1_signal_transition _ rfl⟩

/-- C8: dma_fence_add_callback on an already-signaled fence returns -ENOENT
leaving the fence untouched and enqueuing nothing (so the supplied function
is never invoked through the queue); on an unsignaled fence whose hook must
run and returns false, the fence is signaled internally and -ENOENT is
returned with no enqueue; on a fence that stays unsignaled the callback is
appended to the wait queue and 0 is returned. -/
theorem C8_add_callback :
    (∀ (f : Fence) (cbId : Nat) (hookRet : Bool), f.signaled = true →
      dma_fence_add_callback f cbId hookRet = ⟨-ENOENT, f, []⟩) ∧
    (∀ (f : Fence) (cbId : Nat), f.signaled = false → f.needSw = false →
      dma_fence_add_callback f cbId false =
        ⟨-ENOENT,
         { f with signaled := true, needSw := true,
                  queue := f.queue.filter WaitEntry.isThread },
         [FenceEvent.enableSignaling, FenceEvent.internalSignal]⟩) ∧
    (∀ (f : Fence) (cbId : Nat) (hookRet : Bool), f.signaled = false → f.needSw = true →
      dma_fence_add_callback f cbId hookRet =
        ⟨0, { f with queue := f.queue ++ [WaitEntry.cb cbId] }, [FenceEvent.enqueue]⟩) ∧
    (∀ (f : Fence) (cbId : Nat), f.signaled = false → f.needSw = false →
      dma_fence_add_callback f cbId true =
        ⟨0, { f with needSw := true, queue := f.queue ++ [WaitEntry.cb cbId] },
         [FenceEvent.enableSignaling, FenceEvent.enqueue]⟩) := by
  refine ⟨?_, ?_, ?_, ?_⟩
  · intro f cbId hookRet h
    simp [dma_fence_add_callback, h]
  · intro f cbId h1 h2
    simp [dma_fence_add_callback, __dma_fence_signal, h1, h2]
  · intro f cbId hookRet h1 h2
    simp [dma_fence_add_callback, h1, h2]
  · intro f cbId h1 h2
    simp [dma_fence_add_callback, h1, h2]

/-- Witness for C8: the four arms applied at concrete fences. -/
theorem C8_add_callback_witness :
    dma_fence_add_callback ⟨true, false, []⟩ 3 true = ⟨-ENOENT, ⟨true, false, []⟩, []⟩ ∧
    dma_fence_add_callback ⟨false, false, [WaitEntry.thread 7]⟩ 3 false =
      ⟨-ENOENT, ⟨true, true, [WaitEntry.thread 7]⟩,
       [FenceEvent.enableSignaling, FenceEvent.internalSignal]⟩ ∧
    dma_fence_add_callback ⟨false, true, []⟩ 3 false =
      ⟨0, ⟨false, true, [WaitEntry.cb 3]⟩, [FenceEvent.enqueue]⟩ ∧
    dma_fence_add_callback ⟨false, false, []⟩ 3 true =
      ⟨0, ⟨false, true, [WaitEntry.cb 3]⟩,
       [FenceEvent.enableSignaling, FenceEvent.enqueue]⟩ :=
  ⟨C8_add_callback.1 _ 3 true rfl, C8_add_callback.2.1 _ 3 rfl rfl,
   C8_add_callback.2.2.1 _ 3 false rfl rfl, C8_add_callback.2.2.2 _ 3 rfl rfl⟩

/-- C10: dmabufmgr_fence_buffer_objects with a NULL fence, or on an empty
list, returns at once: the buffer map, the counter, every entry (including
its reserved flag and collected fences) are unchanged and no buffer is
unreserved or woken, so reservations taken by a preceding reserve remain
held. -/
theorem C10_commit_null_noop (st : MgrState) (l : List Validate) (f : Nat) :
    dmabufmgr_fence_buffer_objects none l st = (st, l, []) ∧
    dmabufmgr_fence_buffer_objects (some f) [] st = (st, [], []) :=
  ⟨rfl, rfl⟩

/-- Initial state for the C2 counterexample: buffer 0 carries exclusive
fence 1 and shared fence 2, everything unreserved. -/
def c2st : MgrState :=
  ⟨fun b => if b = 0 then ⟨false, 0, some 1, [2]⟩ else ⟨false, 0, none, []⟩, 0⟩

/-- One exclusive-intent entry naming buffer 0. -/
def c2list : List Validate := [⟨0, false, false, []⟩]

/-- Collected-fence lists produced by reserving c2list against c2st. -/
def c2collected : Option (List (List Nat)) :=
  match dmabufmgr_reserve_buffers c2st c2list with
  | .ok _ out _ => some (out.map fun o => o.fences)
  | _ => none

/-- Counterexample to C2 as stated: buffer 0's prior attached fence set is
exclusive fence 1 plus shared fence 2, yet a successful reserve with an
exclusive-intent entry collects only [2] — the prior exclusive fence is
dropped whenever shared fences are present, so the collected fences do not
equal the buffer's entire prior fence set. -/
theorem C2_counterexample :
    (c2st.bufs 0).fence_excl = some 1 ∧ (c2st.bufs 0).fence_shared = [2] ∧
    c2collected = some [[2]] ∧ ¬ (1 ∈ [2]) := by decide

/-- Initial state for the C3 counterexample: buffer 0 holds no fences. -/
def c3st : MgrState := ⟨fun _ => ⟨false, 0, none, []⟩, 0⟩

/-- One shared-intent entry naming buffer 0, used both as L and as L'. -/
def c3list : List Validate := [⟨0, true, false, []⟩]

/-- The round trip of the C3 counterexample: reserve c3list, commit fence 5
on it, reserve c3list again; returns the second reserve's collected fences
for the single entry together with buffer 0's shared-fence list after the
commit. -/
def c3roundtrip : Option (List Nat × List Nat) :=
  match dmabufmgr_reserve_buffers c3st c3list with
  | .ok st1 out _ =>
    let c := dmabufmgr_fence_buffer_objects (some 5) out st1
    match dmabufmgr_reserve_buffers c.1 c3list with
    | .ok _ out2 _ => some ((out2.headD ⟨0, true, false, []⟩).fences, (c.1.bufs 0).fence_shared)
    | _ => none
  | _ => none

/-- Counterexample to C3 as stated: after reserve(L) and commit(L, 5) with
a shared-intent L on buffer 0, the fence 5 sits in the buffer's shared set,
yet a subsequent successful reserve of a shared-intent L' on the same
buffer collects nothing — fence 5 is not among that entry's fences. -/
theorem C3_counterexample :
    c3roundtrip = some ([], [5]) ∧ ¬ ((5 : Nat) ∈ ([] : List Nat)) := by decide

/-- Initial state for the C4 failing input: buffer 0 already holds
DMA_BUF_MAX_SHARED_FENCE - 1 = 7 shared fences. -/
def c4st : MgrState :=
  ⟨fun b => if b = 0 then ⟨false, 0, none, [1, 2, 3, 4, 5, 6, 7]⟩ else ⟨false, 0, none, []⟩, 0⟩

/-- A list naming buffer 0 in two shared-intent entries. -/
def c4list : List Validate := [⟨0, true, false, []⟩, ⟨0, true, false, []⟩]

/-- Buffer 0's shared-fence count after reserving c4list against c4st and
committing fence 9 on it. -/
def c4count : Option Nat :=
  match dmabufmgr_reserve_buffers c4st c4list with
  | .ok st1 out _ =>
    some ((dmabufmgr_fence_buffer_objects (some 9) out st1).1.bufs 0).fence_shared.length
  | _ => none

/-- C4 failing run: with buffer 0 at 7 shared fences, the list naming it in
two shared-intent entries passes reserve's capacity check (7 ≠ 8 for both
entries), and commit then appends fence 9 once per entry, driving
fence_shared_count to 9 > DMA_BUF_MAX_SHARED_FENCE — in the C code this
writes past the fixed fence_shared[8] array. -/
theorem C4_overflow_run : c4count = some 9 ∧ DMA_BUF_MAX_SHARED_FENCE < 9 := by decide

/-- The concrete wait_timeout run of the C6 counterexample: an unsignaled
fence with NEED_SW_SIGNAL clear, a non-interruptible wait with budget 5,
a hook returning true, and one sleep during which the fence is signaled. -/
def c6run : Option WaitRes :=
  dma_fence_wait_timeout ⟨false, false, []⟩ false 5 true false 0 [⟨true, 4, false⟩]

/-- Counterexample to C6 as stated: on a fence whose enable_signaling hook
must be invoked (unsignaled, NEED_SW_SIGNAL clear), the blocking wait path
enqueues the caller's waiter BEFORE invoking the hook — the trace is
[enqueue, enableSignaling, sleep], so the required hook-before-enqueue
ordering fails on the wait path. -/
theorem C6_counterexample :
    (⟨false, false, []⟩ : Fence).signaled = false ∧
    (⟨false, false, []⟩ : Fence).needSw = false ∧
    c6run.map (fun r => r.trace) =
      some [FenceEvent.enqueue, FenceEvent.enableSignaling, FenceEvent.sleep] ∧
    c6run.map (fun r => hookPrecedesEnqueue r.trace) = some false := by decide

/-- Counterexample to C7 as stated, refuting both of its prongs on
concrete runs.  First prong: dma_fence_wait_timeout on an already-signaled
fence with the non-negative timeout 0 returns 0 — the "budget exhausted"
value — and not a positive remaining time, although the fence is signaled
within the budget.  Second prong (residue preservation): two interruptible
waits with budget 10, interrupted by a pending thread signal after
schedule_timeout leaves 7 respectively 2 jiffies of the budget unconsumed,
return bit-identical results — the sentinel -ERESTARTSYS with the same
fence state — so the unconsumed portion of the timeout is not preserved
for the caller to observe. -/
theorem C7_counterexample :
    (dma_fence_wait_timeout ⟨true, false, []⟩ false 0 true false 0 [] =
      some ⟨0, ⟨true, false, []⟩, []⟩ ∧ ¬ (0 < (0 : Int))) ∧
    (dma_fence_wait_timeout ⟨false, false, []⟩ true 10 true false 0 [⟨false, 7, true⟩] =
      dma_fence_wait_timeout ⟨false, false, []⟩ true 10 true false 0 [⟨false, 2, true⟩] ∧
     dma_fence_wait_timeout ⟨false, false, []⟩ true 10 true false 0 [⟨false, 7, true⟩] =
      some ⟨-ERESTARTSYS, ⟨false, true, []⟩,
            [FenceEvent.enqueue, FenceEvent.enableSignaling, FenceEvent.sleep]⟩) := by
  decide

/-- Validity of a wait-loop environment against a starting budget: every
schedule_timeout return value is non-negative and bounded by the remaining
budget it was called with, as the scheduler guarantees. -/
def envValid : Int → List SleepStep → Bool
  | _, [] => true
  | b, s :: rest =>
    decide (0 ≤ s.schedRet) && decide (s.schedRet ≤ b) && envValid s.schedRet rest

/-- A wait-loop call whose remaining budget is non-positive exits at once,
returning the budget and the fence untouched. -/
theorem waitLoop_nonpos (intr hookRet : Bool) (env : List SleepStep) (f : Fence)
    (ret : Int) (enable : Bool) (h : ret ≤ 0) :
    waitLoop intr hookRet env f ret enable = some (ret, f, []) := by
  have hlt : ¬ (0 < ret) := by omega
  cases env <;> (rw [waitLoop]; simp [hlt])

/-- Return-value analysis of the wait loop: under a valid environment and a
non-negative incoming budget, a terminating loop returns either the
interrupted sentinel (only on an interruptible wait) or a value between 0
and the incoming budget that is positive only when the fence ended up
signaled. -/
theorem waitLoop_spec (intr hookRet : Bool) :
    ∀ (env : List SleepStep) (f : Fence) (ret : Int) (enable : Bool)
      (r : Int) (fz : Fence) (tr : List FenceEvent),
      0 ≤ ret → envValid ret env = true →
      waitLoop intr hookRet env f ret enable = some (r, fz, tr) →
      (r = -ERESTARTSYS ∧ intr = true) ∨
      (0 ≤ r ∧ r ≤ ret ∧ (0 < r → fz.signaled = true)) := by
  intro env
  induction env with
  | nil =>
    intro f ret enable r fz tr hret _ h
    rw [waitLoop] at h
    split at h
    case isTrue hc =>
      simp only [Option.some.injEq, Prod.mk.injEq] at h
      obtain ⟨rfl, rfl, rfl⟩ := h
      rcases Bool.or_eq_true_iff.mp hc with hs | hns
      · exact Or.inr ⟨hret, le_refl _, fun _ => hs⟩
      · exact Or.inr ⟨hret, le_refl _, fun hp => absurd hp (by simpa using hns)⟩
    case isFalse => simp at h
  | cons step rest ih =>
    intro f ret enable r fz tr hret hv h
    rw [waitLoop] at h
    split at h
    case isTrue hc =>
      simp only [Option.some.injEq, Prod.mk.injEq] at h
      obtain ⟨rfl, rfl, rfl⟩ := h
      rcases Bool.or_eq_true_iff.mp hc with hs | hns
      · exact Or.inr ⟨hret, le_refl _, fun _ => hs⟩
      · exact Or.inr ⟨hret, le_refl _, fun hp => absurd hp (by simpa using hns)⟩
    case isFalse hc =>
      simp only [envValid, Bool.and_eq_true, decide_eq_true_eq] at hv
      obtain ⟨⟨hv0, hvb⟩, hvr⟩ := hv
      by_cases hint : (decide (0 < step.schedRet) && intr && step.sigPend) = true
      · rw [show nextRet intr step = -ERESTARTSYS from if_pos hint,
            waitLoop_nonpos intr hookRet rest _ _ false (by simp [ERESTARTSYS])] at h
        simp only [Option.some.injEq, Prod.mk.injEq] at h
        obtain ⟨rfl, rfl, rfl⟩ := h
        simp only [Bool.and_eq_true] at hint
        exact Or.inl ⟨rfl, hint.1.2⟩
      · rw [show nextRet intr step = step.schedRet from if_neg hint] at h
        rcases hrec : waitLoop intr hookRet rest
            (extStep step.extSignal (hookStep hookRet enable f).1)
            step.schedRet false with _ | v
        · rw [hrec] at h; simp at h
        · rw [hrec] at h
          obtain ⟨v1, v2, v3⟩ := v
          simp only [Option.some.injEq, Prod.mk.injEq] at h
          obtain ⟨rfl, rfl, rfl⟩ := h
          rcases ih _ _ _ _ _ _ hv0 hvr hrec with hl | hr2
          · exact Or.inl hl
          · exact Or.inr ⟨hr2.1, le_trans hr2.2.1 hvb, hr2.2.2⟩

/-- Inversion of dma_fence_wait_timeout on the path that reaches the wait
loop (unsignaled fence, non-negative timeout, no signal already pending):
the result is the loop's verdict with the thread's waiter enqueued first
and removed on exit. -/
theorem wait_timeout_some_inv (f : Fence) (intr : Bool) (t : Int)
    (hookRet sigPend0 : Bool) (tid : Nat) (env : List SleepStep) (r : WaitRes)
    (h1 : f.signaled = false) (hneg : ¬ t < 0) (hip : (intr && sigPend0) = false)
    (h : dma_fence_wait_timeout f intr t hookRet sigPend0 tid env = some r) :
    ∃ rv fz tr,
      waitLoop intr hookRet env
        { f with needSw := true, queue := f.queue ++ [WaitEntry.thread tid] }
        t (!f.needSw) = some (rv, fz, tr) ∧
      r = ⟨rv, { fz with queue := fz.queue.erase (WaitEntry.thread tid) },
           FenceEvent.enqueue :: tr⟩ := by
  rw [dma_fence_wait_timeout] at h
  rw [if_neg hneg, if_neg (by simp [h1]), if_neg (by simp [hip])] at h
  rcases hrec : waitLoop intr hookRet env
      { f with needSw := true, queue := f.queue ++ [WaitEntry.thread tid] }
      t (!f.needSw) with _ | v
  · rw [hrec] at h; simp at h
  · rw [hrec] at h
    obtain ⟨rv, fzv, trv⟩ := v
    simp only [Option.some.injEq] at h
    exact ⟨rv, fzv, trv, rfl, h.symm⟩

/-- C7 amended: for every fence and non-negative timeout t, a terminating
dma_fence_wait_timeout returns either the interrupted sentinel
-ERESTARTSYS, or 0 (the budget is exhausted — including when the fence is
signaled exactly then, e.g. a zero timeout on an already-signaled fence),
or a positive remaining time not exceeding t, in which case the fence is
signaled at return; the sentinel arises only on interruptible waits; and
an already-signaled fence gets the whole timeout back. -/
theorem C7_amended_wait (f : Fence) (intr : Bool) (t : Int) (hookRet sigPend0 : Bool)
    (tid : Nat) (env : List SleepStep) (r : WaitRes)
    (ht : 0 ≤ t) (hv : envValid t env = true)
    (h : dma_fence_wait_timeout f intr t hookRet sigPend0 tid env = some r) :
    (r.ret = -ERESTARTSYS ∨ r.ret = 0 ∨ (0 < r.ret ∧ r.ret ≤ t)) ∧
    (0 < r.ret → r.fence.signaled = true) ∧
    (r.ret = -ERESTARTSYS → intr = true) ∧
    (f.signaled = true → r.ret = t) := by
  by_cases hsig : f.signaled = true
  · rw [dma_fence_wait_timeout, if_neg (by omega), if_pos hsig] at h
    simp only [Option.some.injEq] at h
    subst h
    refine ⟨?_, ?_, ?_, ?_⟩ <;> dsimp only
    · simp only [ERESTARTSYS]; omega
    · exact fun _ => hsig
    · simp only [ERESTARTSYS]; intro habs; omega
    · exact fun _ => rfl
  · replace hsig : f.signaled = false := by simpa using hsig
    by_cases hip : (intr && sigPend0) = true
    · rw [dma_fence_wait_timeout, if_neg (by omega), if_neg (by simp [hsig]),
          if_pos hip] at h
      simp only [Option.some.injEq] at h
      subst h
      simp only [Bool.and_eq_true] at hip
      refine ⟨?_, ?_, ?_, ?_⟩ <;> dsimp only
      · exact Or.inl rfl
      · simp only [ERESTARTSYS]; intro hp; omega
      · exact fun _ => hip.1
      · intro hs; rw [hs] at hsig; cases hsig
    · replace hip : (intr && sigPend0) = false := by simpa using hip
      obtain ⟨rv, fz, tr, hloop, hres⟩ :=
        wait_timeout_some_inv f intr t hookRet sigPend0 tid env r hsig (by omega) hip h
      subst hres
      rcases waitLoop_spec intr hookRet env _ t (!f.needSw) rv fz tr ht hv hloop
        with hl | hr2
      · refine ⟨?_, ?_, ?_, ?_⟩ <;> dsimp only
        · exact Or.inl hl.1
        · rw [hl.1]; simp only [ERESTARTSYS]; intro hp; omega
        · exact fun _ => hl.2
        · intro hs; rw [hs] at hsig; cases hsig
      · refine ⟨?_, ?_, ?_, ?_⟩ <;> dsimp only
        · omega
        · exact fun hp => hr2.2.2 hp
        · intro habs
          exfalso
          have h1 := hr2.1
          rw [habs] at h1
          simp only [ERESTARTSYS] at h1
          omega
        · intro hs; rw [hs] at hsig; cases hsig

/-- The concrete fence used by the C7 witness. -/
def c7f : Fence := ⟨false, false, []⟩

/-- The concrete environment used by the C7 witness: one sleep during which
the fence is signaled externally and schedule_timeout returns 2 of 3. -/
def c7env : List SleepStep := [⟨true, 2, false⟩]

/-- The result of the C7 witness run. -/
def c7res : WaitRes :=
  (dma_fence_wait_timeout c7f false 3 true false 0 c7env).getD ⟨0, c7f, []⟩

/-- Witness for C7: a run with budget 3 that gets signaled during its first
sleep returns the positive residue 2 with the fence signaled. -/
theorem C7_amended_wait_witness :
    (0 ≤ (3 : Int)) ∧ envValid 3 c7env = true ∧
    dma_fence_wait_timeout c7f false 3 true false 0 c7env = some c7res ∧
    ((c7res.ret = -ERESTARTSYS ∨ c7res.ret = 0 ∨ (0 < c7res.ret ∧ c7res.ret ≤ 3)) ∧
     (0 < c7res.ret → c7res.fence.signaled = true) ∧
     (c7res.ret = -ERESTARTSYS → false = true) ∧
     (c7f.signaled = true → c7res.ret = 3)) :=
  ⟨by decide, by decide, by decide,
   C7_amended_wait c7f false 3 true false 0 c7env c7res (by decide) (by decide) (by decide)⟩

/-- One unfolding of the wait loop on an unsignaled fence with budget
remaining: the iteration runs the hook step, the external-signal step and
the sleep, then recurses. -/
theorem waitLoop_cons_unsig (intr hookRet : Bool) (step : SleepStep)
    (rest : List SleepStep) (f : Fence) (ret : Int) (enable : Bool)
    (hs : f.signaled = false) (hr : 0 < ret) :
    waitLoop intr hookRet (step :: rest) f ret enable =
      match waitLoop intr hookRet rest
          (extStep step.extSignal (hookStep hookRet enable f).1)
          (nextRet intr step) false with
      | none => none
      | some (r, fz, tr) =>
        some (r, fz, (hookStep hookRet enable f).2 ++ FenceEvent.sleep :: tr) := by
  rw [waitLoop]
  simp [hs, hr]

/-- The trace of a terminating wait-loop run that performs at least one
iteration with the hook still to run: it opens with the hook invocation,
the internal signal when the hook returned false, and the first sleep. -/
theorem waitLoop_first_iter_trace (intr hookRet : Bool) (step : SleepStep)
    (rest : List SleepStep) (f : Fence) (ret : Int) (r : Int) (fz : Fence)
    (tr : List FenceEvent) (hs : f.signaled = false) (hr : 0 < ret)
    (h : waitLoop intr hookRet (step :: rest) f ret true = some (r, fz, tr)) :
    ∃ tail, tr = FenceEvent.enableSignaling ::
      (if hookRet then FenceEvent.sleep :: tail
       else FenceEvent.internalSignal :: FenceEvent.sleep :: tail) := by
  rw [waitLoop_cons_unsig intr hookRet step rest f ret true hs hr] at h
  rcases hrec : waitLoop intr hookRet rest
      (extStep step.extSignal (hookStep hookRet true f).1)
      (nextRet intr step) false with _ | v
  · rw [hrec] at h; simp at h
  · rw [hrec] at h
    obtain ⟨rv, fzv, trv⟩ := v
    simp only [Option.some.injEq, Prod.mk.injEq] at h
    obtain ⟨-, -, htr⟩ := h
    refine ⟨trv, ?_⟩
    rw [← htr]
    cases hookRet <;> simp [hookStep]

/-- C6 amended: on a fence whose enable_signaling hook must run (unsignaled
with NEED_SW_SIGNAL clear), dma_fence_add_callback invokes the hook before
the enqueue decision — signaling the fence first when the hook returns
false, in which case nothing is enqueued — whereas the blocking wait path
enqueues the caller's waiter first and invokes the hook inside the wait
loop before the first sleep, signaling the fence before that sleep when
the hook returns false. -/
theorem C6_amended_ordering :
    (∀ (f : Fence) (cbId : Nat) (hookRet : Bool), f.signaled = false → f.needSw = false →
      (dma_fence_add_callback f cbId hookRet).trace =
        (if hookRet then [FenceEvent.enableSignaling, FenceEvent.enqueue]
         else [FenceEvent.enableSignaling, FenceEvent.internalSignal]) ∧
      hookPrecedesEnqueue (dma_fence_add_callback f cbId hookRet).trace = true) ∧
    (∀ (f : Fence) (intr : Bool) (t : Int) (hookRet sigPend0 : Bool) (tid : Nat)
       (step : SleepStep) (rest : List SleepStep) (r : WaitRes),
      f.signaled = false → f.needSw = false → 0 < t → (intr && sigPend0) = false →
      dma_fence_wait_timeout f intr t hookRet sigPend0 tid (step :: rest) = some r →
      ∃ tail, r.trace = FenceEvent.enqueue :: FenceEvent.enableSignaling ::
        (if hookRet then FenceEvent.sleep :: tail
         else FenceEvent.internalSignal :: FenceEvent.sleep :: tail)) := by
  constructor
  · intro f cbId hookRet h1 h2
    cases hookRet <;>
      simp [dma_fence_add_callback, __dma_fence_signal, h1, h2,
            hookPrecedesEnqueue, hookScan]
  · intro f intr t hookRet sigPend0 tid step rest r h1 h2 ht hip h
    obtain ⟨rv, fz, tr, hloop, hres⟩ :=
      wait_timeout_some_inv f intr t hookRet sigPend0 tid (step :: rest) r h1
        (by omega) hip h
    rw [h2] at hloop
    obtain ⟨tail, htail⟩ :=
      waitLoop_first_iter_trace intr hookRet step rest _ t rv fz tr
        (by simpa using h1) ht hloop
    subst hres
    exact ⟨tail, by rw [htail]⟩

/-- The concrete inputs of the C6 witness: an interruptible-free wait on an
unsignaled fence with the hook still to run, and an add_callback on the
same kind of fence. -/
def c6wf : Fence := ⟨false, false, [WaitEntry.cb 9]⟩

/-- The result of the C6 witness wait run. -/
def c6wres : WaitRes :=
  (dma_fence_wait_timeout c6wf false 4 false false 1 [⟨false, 0, false⟩]).getD ⟨0, c6wf, []⟩

/-- Witness for C6: both arms applied at concrete inputs — the add_callback
trace opens with the hook, and the wait run's trace opens with the enqueue
followed by the hook, the internal signal (the hook returned false) and the
first sleep. -/
theorem C6_amended_ordering_witness :
    ((dma_fence_add_callback ⟨false, false, []⟩ 5 true).trace =
        [FenceEvent.enableSignaling, FenceEvent.enqueue] ∧
      hookPrecedesEnqueue (dma_fence_add_callback ⟨false, false, []⟩ 5 true).trace = true) ∧
    (∃ tail, c6wres.trace = FenceEvent.enqueue :: FenceEvent.enableSignaling ::
      FenceEvent.internalSignal :: FenceEvent.sleep :: tail) := by
  constructor
  · have := C6_amended_ordering.1 ⟨false, false, []⟩ 5 true rfl rfl
    simpa using this
  · have := C6_amended_ordering.2 c6wf false 4 false false 1 ⟨false, 0, false⟩ []
      c6wres rfl rfl (by decide) (by decide) (by decide)
    simpa using this

/-- The buffer map update returns the new value at the written slot. -/
theorem updBuf_same (bufs : Nat → DmaBuf) (b : Nat) (v : DmaBuf) :
    updBuf bufs b v b = v := by
  simp [updBuf]

/-- The buffer map update leaves other slots alone. -/
theorem updBuf_other (bufs : Nat → DmaBuf) (b : Nat) (v : DmaBuf) (x : Nat)
    (h : x ≠ b) : updBuf bufs b v x = bufs x := by
  simp [updBuf, h]

/-- Two buffer maps agree on every buffer's attached fences. -/
def sameFences (a b : Nat → DmaBuf) : Prop :=
  ∀ x, (a x).fence_excl = (b x).fence_excl ∧ (a x).fence_shared = (b x).fence_shared

/-- sameFences is reflexive. -/
theorem sameFences_refl (a : Nat → DmaBuf) : sameFences a a := fun _ => ⟨rfl, rfl⟩

/-- sameFences is transitive. -/
theorem sameFences_trans {a b c : Nat → DmaBuf} (h1 : sameFences a b)
    (h2 : sameFences b c) : sameFences a c :=
  fun x => ⟨(h1 x).1.trans (h2 x).1, (h1 x).2.trans (h2 x).2⟩

/-- The fence snapshot depends only on the entry's intent and the buffer's
attached fences. -/
theorem collectFences_congr (e1 e2 : Validate) (b1 b2 : DmaBuf)
    (hs : e1.shared = e2.shared) (he : b1.fence_excl = b2.fence_excl)
    (hsh : b1.fence_shared = b2.fence_shared) :
    collectFences e1 b1 = collectFences e2 b2 := by
  simp [collectFences, hs, he, hsh]

/-- Taking a reservation never changes the buffer's attached fences. -/
theorem reserve_locked_fences (bo : DmaBuf) (s : Nat) :
    ((dma_buf_reserve_locked bo s).2).fence_excl = bo.fence_excl ∧
    ((dma_buf_reserve_locked bo s).2).fence_shared = bo.fence_shared := by
  unfold dma_buf_reserve_locked
  repeat' split
  all_goals exact ⟨rfl, rfl⟩

/-- A free buffer is reserved successfully and stamped with the ticket. -/
theorem reserve_locked_free (bo : DmaBuf) (s : Nat) (h : bo.reserved = false) :
    dma_buf_reserve_locked bo s = (0, { bo with reserved := true, ticket := s }) := by
  simp [dma_buf_reserve_locked, h]

/-- A buffer already held by the caller's own ticket is a re-entrant
success, untouched. -/
theorem reserve_locked_mine (bo : DmaBuf) (s : Nat) (h : bo.reserved = true)
    (ht : bo.ticket = s) : dma_buf_reserve_locked bo s = (0, bo) := by
  simp [dma_buf_reserve_locked, h, ht]

/-- A reservation attempt on a buffer held under a foreign ticket does not
succeed. -/
theorem reserve_locked_foreign (bo : DmaBuf) (s : Nat) (hres : bo.reserved = true)
    (ht : bo.ticket ≠ s) : (dma_buf_reserve_locked bo s).1 ≠ 0 := by
  unfold dma_buf_reserve_locked
  rw [if_neg (by simp [hres]), if_neg (by simp [ht])]
  split <;> simp [EBUSY, EAGAIN]

/-- A successful reservation leaves the buffer reserved and carrying the
caller's ticket. -/
theorem reserve_locked_ok_state (bo : DmaBuf) (s : Nat)
    (h : (dma_buf_reserve_locked bo s).1 = 0) :
    ((dma_buf_reserve_locked bo s).2).reserved = true ∧
    ((dma_buf_reserve_locked bo s).2).ticket = s := by
  by_cases hres : bo.reserved = false
  · rw [reserve_locked_free bo s hres]
    exact ⟨rfl, rfl⟩
  · replace hres : bo.reserved = true := by simpa using hres
    by_cases ht : bo.ticket = s
    · rw [reserve_locked_mine bo s hres ht]
      exact ⟨hres, ht⟩
    · exact absurd h (reserve_locked_foreign bo s hres ht)

/-- Success characterization of the reserve loop: every processed entry is
flagged reserved and snapshots its buffer's fences as they stood at entry
to the loop, no back-off wake happens, and the buffers' attached fences
are untouched. -/
theorem reserveGo_ok_spec (val_seq : Nat) :
    ∀ (todo : List Validate) (bufs : Nat → DmaBuf) (done : List Validate)
      (st1 : MgrState) (out : List Validate) (wk : List Nat),
      reserveGo val_seq bufs done todo = .ok st1 out wk →
      st1.counter = val_seq ∧ sameFences st1.bufs bufs ∧ wk = [] ∧
      out = done ++ todo.map fun e =>
        ⟨e.bo, e.shared, true, collectFences e (bufs e.bo)⟩ := by
  intro todo
  induction todo with
  | nil =>
    intro bufs done st1 out wk h
    rw [reserveGo] at h
    cases h
    exact ⟨rfl, sameFences_refl _, rfl, by simp⟩
  | cons e rest ih =>
    intro bufs done st1 out wk h
    rw [reserveGo] at h
    split at h
    case isFalse => cases h
    case isTrue hr0 =>
      split at h
      case isTrue => cases h
      case isFalse hcap =>
        obtain ⟨hc, hsf, hwk, hout⟩ := ih _ _ _ _ _ h
        have hfences := reserve_locked_fences (bufs e.bo) val_seq
        have hstep : sameFences
            (updBuf bufs e.bo (dma_buf_reserve_locked (bufs e.bo) val_seq).2) bufs := by
          intro x
          by_cases hx : x = e.bo
          · subst hx
            rw [updBuf_same]
            exact hfences
          · rw [updBuf_other _ _ _ _ hx]
            exact ⟨rfl, rfl⟩
        refine ⟨hc, sameFences_trans hsf hstep, hwk, ?_⟩
        rw [hout, List.map_cons, List.append_assoc]
        congr 1
        rw [List.singleton_append]
        congr 1
        · congr 1
          exact collectFences_congr e e _ (bufs e.bo) rfl hfences.1 hfences.2
        · refine List.map_congr_left fun x _ => ?_
          congr 1
          exact collectFences_congr x x _ _ rfl (hstep x.bo).1 (hstep x.bo).2

/-- Success characterization of dmabufmgr_reserve_buffers: on success the
buffers' fences are untouched, nobody is woken, and the output entries are
the input entries flagged reserved with the snapshot of their buffer's
fences taken from the pre-call state. -/
theorem reserve_ok_spec (st : MgrState) (l : List Validate) (st1 : MgrState)
    (out : List Validate) (wk : List Nat)
    (h : dmabufmgr_reserve_buffers st l = .ok st1 out wk) :
    sameFences st1.bufs st.bufs ∧ wk = [] ∧
    out = l.map fun e => ⟨e.bo, e.shared, true, collectFences e (st.bufs e.bo)⟩ := by
  rw [dmabufmgr_reserve_buffers] at h
  split at h
  case isTrue hemp =>
    cases h
    have : l = [] := by simpa [List.isEmpty_iff] using hemp
    subst this
    exact ⟨sameFences_refl _, rfl, by simp⟩
  case isFalse =>
    obtain ⟨-, hsf, hwk, hout⟩ := reserveGo_ok_spec (st.counter + 1) _ _ _ _ _ _ h
    refine ⟨hsf, hwk, ?_⟩
    rw [hout, List.nil_append, List.map_map]
    refine List.map_congr_left fun x _ => ?_
    rfl

/-- The buffer's exclusive fence as a zero- or one-element list. -/
def exclFences (bo : DmaBuf) : List Nat :=
  match bo.fence_excl with
  | some g => [g]
  | none => []

/-- An exclusive-intent entry against a buffer with shared fences collects
exactly those shared fences. -/
theorem collectFences_excl_nonempty (e : Validate) (bo : DmaBuf)
    (hs : e.shared = false) (hne : bo.fence_shared ≠ []) :
    collectFences e bo = bo.fence_shared := by
  match hb : bo.fence_shared with
  | [] => exact absurd hb hne
  | x :: xs => simp [collectFences, hs, hb]

/-- An exclusive-intent entry against a buffer without shared fences
collects the buffer's exclusive fence, if any. -/
theorem collectFences_excl_empty (e : Validate) (bo : DmaBuf)
    (hs : e.shared = false) (he : bo.fence_shared = []) :
    collectFences e bo = exclFences bo := by
  simp [collectFences, hs, he, exclFences]

/-- A shared-intent entry collects the buffer's exclusive fence, if any. -/
theorem collectFences_shared (e : Validate) (bo : DmaBuf) (hs : e.shared = true) :
    collectFences e bo = exclFences bo := by
  simp [collectFences, hs, exclFences]

/-- Conclusion proved for claim C2 (amended): after a successful reserve
every output entry is flagged reserved; an exclusive-intent entry collects
the buffer's entire prior shared-fence set when that set is nonempty (the
prior exclusive fence is not collected then), and otherwise its exclusive
fence if present; a shared-intent entry collects at most the prior
exclusive fence. -/
def C2Concl (st : MgrState) (l out : List Validate) : Prop :=
  List.Forall₂ (fun e o =>
    o.reserved = true ∧
    (e.shared = false → (st.bufs e.bo).fence_shared ≠ [] →
      o.fences = (st.bufs e.bo).fence_shared) ∧
    (e.shared = false → (st.bufs e.bo).fence_shared = [] →
      o.fences = exclFences (st.bufs e.bo)) ∧
    (e.shared = true → o.fences = exclFences (st.bufs e.bo))) l out

/-- C2 amended: for every list and prior buffer state, a successful
dmabufmgr_reserve_buffers leaves every entry with reserved_flag true and
collects, for an exclusive-intent entry, all of the buffer's prior shared
fences when there are any — the prior exclusive fence is dropped in that
case — and otherwise exactly the prior exclusive fence; a shared-intent
entry collects at most the prior exclusive fence. -/
theorem C2_amended_collection (st : MgrState) (l : List Validate) (st1 : MgrState)
    (out : List Validate) (wk : List Nat)
    (h : dmabufmgr_reserve_buffers st l = .ok st1 out wk) : C2Concl st l out := by
  obtain ⟨-, -, hout⟩ := reserve_ok_spec st l st1 out wk h
  subst hout
  rw [C2Concl, List.forall₂_map_right_iff]
  rw [List.forall₂_same]
  intro e _
  refine ⟨rfl, ?_, ?_, ?_⟩ <;> dsimp only
  · intro hs hne
    exact collectFences_excl_nonempty e _ hs hne
  · intro hs he
    exact collectFences_excl_empty e _ hs he
  · intro hs
    exact collectFences_shared e _ hs

/-- State projection of the C2 witness run. -/
def c2wst1 : MgrState :=
  match dmabufmgr_reserve_buffers c2st c2list with
  | .ok s _ _ => s
  | _ => c2st

/-- Entry projection of the C2 witness run. -/
def c2wout : List Validate :=
  match dmabufmgr_reserve_buffers c2st c2list with
  | .ok _ o _ => o
  | _ => []

/-- Wake projection of the C2 witness run. -/
def c2wwk : List Nat :=
  match dmabufmgr_reserve_buffers c2st c2list with
  | .ok _ _ w => w
  | _ => []

/-- Witness for C2 amended: the concrete reserve of an exclusive entry
against buffer 0 of c2st succeeds and satisfies the amended collection
property. -/
theorem C2_amended_collection_witness :
    dmabufmgr_reserve_buffers c2st c2list = .ok c2wst1 c2wout c2wwk ∧
    C2Concl c2st c2list c2wout :=
  ⟨rfl, C2_amended_collection c2st c2list c2wst1 c2wout c2wwk rfl⟩

/-- Once the committed fence sits on a buffer — in the shared set or the
exclusive slot — the remaining install steps keep it there. -/
theorem commitInstall_persists (f : Nat) :
    ∀ (l : List Validate) (bufs : Nat → DmaBuf) (b : Nat),
      (f ∈ (bufs b).fence_shared → f ∈ ((commitInstall f bufs l).1 b).fence_shared) ∧
      ((bufs b).fence_excl = some f → ((commitInstall f bufs l).1 b).fence_excl = some f) := by
  intro l
  induction l with
  | nil => exact fun bufs b => ⟨id, id⟩
  | cons e rest ih =>
    intro bufs b
    rw [commitInstall]
    refine ⟨fun hm => ?_, fun he => ?_⟩ <;> dsimp only
    · refine (ih _ b).1 ?_
      by_cases hb : b = e.bo
      · subst hb
        rw [updBuf_same]
        unfold installFence
        split
        · exact List.mem_append_left _ hm
        · exact hm
      · rwa [updBuf_other _ _ _ _ hb]
    · refine (ih _ b).2 ?_
      by_cases hb : b = e.bo
      · subst hb
        rw [updBuf_same]
        unfold installFence
        split
        · exact he
        · rfl
      · rwa [updBuf_other _ _ _ _ hb]

/-- The install loop deposits the committed fence on every entry's buffer:
in the shared set for a shared-intent entry, in the exclusive slot for an
exclusive-intent entry. -/
theorem commitInstall_mem (f : Nat) :
    ∀ (l : List Validate) (bufs : Nat → DmaBuf), ∀ e ∈ l,
      (e.shared = true → f ∈ ((commitInstall f bufs l).1 e.bo).fence_shared) ∧
      (e.shared = false → ((commitInstall f bufs l).1 e.bo).fence_excl = some f) := by
  intro l
  induction l with
  | nil => intro bufs e he; cases he
  | cons e0 rest ih =>
    intro bufs e he
    rcases List.mem_cons.mp he with rfl | hmem
    · rw [commitInstall]
      refine ⟨fun hs => ?_, fun hs => ?_⟩ <;> dsimp only
      · refine (commitInstall_persists f rest _ e.bo).1 ?_
        rw [updBuf_same]
        unfold installFence
        rw [if_pos hs]
        exact List.mem_append_right _ (List.mem_singleton.mpr rfl)
      · refine (commitInstall_persists f rest _ e.bo).2 ?_
        rw [updBuf_same]
        unfold installFence
        rw [if_neg (by simp [hs])]
    · rw [commitInstall]
      exact ih _ e hmem

/-- The install loop adds nothing but the committed fence to any buffer's
shared set. -/
theorem commitInstall_all_eq (f : Nat) :
    ∀ (l : List Validate) (bufs : Nat → DmaBuf) (b : Nat),
      (∀ x ∈ (bufs b).fence_shared, x = f) →
      ∀ x ∈ ((commitInstall f bufs l).1 b).fence_shared, x = f := by
  intro l
  induction l with
  | nil => exact fun bufs b h => h
  | cons e rest ih =>
    intro bufs b h
    rw [commitInstall]
    refine ih _ b ?_
    by_cases hb : b = e.bo
    · subst hb
      rw [updBuf_same]
      unfold installFence
      split
      · intro x hx
        rcases List.mem_append.mp hx with hx1 | hx2
        · exact h x hx1
        · exact List.mem_singleton.mp hx2
      · exact h
    · rwa [updBuf_other _ _ _ _ hb]

/-- A buffer whose fences are already cleared stays cleared through the
rest of the clearing loop. -/
theorem commitClear_preserves (l : List Validate) :
    ∀ (bufs : Nat → DmaBuf) (b : Nat),
      (bufs b).fence_shared = [] → (bufs b).fence_excl = none →
      (commitClear bufs l b).fence_shared = [] ∧ (commitClear bufs l b).fence_excl = none := by
  induction l with
  | nil => exact fun bufs b h1 h2 => ⟨h1, h2⟩
  | cons e rest ih =>
    intro bufs b h1 h2
    rw [commitClear]
    refine ih _ b ?_ ?_ <;>
      (split
       · assumption
       · by_cases hb : b = e.bo
         · subst hb; rw [updBuf_same]
         · rwa [updBuf_other _ _ _ _ hb])

/-- The clearing loop empties the fences of every buffer named by an
exclusive-intent entry. -/
theorem commitClear_clears (l : List Validate) :
    ∀ (bufs : Nat → DmaBuf), ∀ e ∈ l, e.shared = false →
      (commitClear bufs l e.bo).fence_shared = [] ∧
      (commitClear bufs l e.bo).fence_excl = none := by
  induction l with
  | nil => intro bufs e he; cases he
  | cons e0 rest ih =>
    intro bufs e he hs
    rcases List.mem_cons.mp he with rfl | hmem
    · rw [commitClear, if_neg (by simp [hs])]
      exact commitClear_preserves rest _ e.bo (by rw [updBuf_same]) (by rw [updBuf_same])
    · rw [commitClear]
      exact ih _ e hmem hs

/-- The install loop ignores the entries' reserved flags: clearing them
first changes nothing. -/
theorem commitInstall_map_clear (f : Nat) :
    ∀ (l : List Validate) (bufs : Nat → DmaBuf),
      commitInstall f bufs (l.map fun e => { e with reserved := false }) =
      commitInstall f bufs l := by
  intro l
  induction l with
  | nil => intro bufs; rfl
  | cons e rest ih =>
    intro bufs
    rw [List.map_cons, commitInstall, commitInstall, ih]
    rfl

/-- Effect of a commit on the buffers of its entries: the committed fence
ends up in the shared set of every shared-intent entry's buffer; for an
exclusive-intent entry's buffer it occupies the exclusive slot and is the
only possible member of the shared set. -/
theorem commit_installs (F : Nat) (l : List Validate) (st st2 : MgrState)
    (out2 : List Validate) (wk2 : List Nat) (hne : l ≠ [])
    (h : dmabufmgr_fence_buffer_objects (some F) l st = (st2, out2, wk2)) :
    ∀ e ∈ l,
      (e.shared = true → F ∈ (st2.bufs e.bo).fence_shared) ∧
      (e.shared = false → (st2.bufs e.bo).fence_excl = some F ∧
        ∀ x ∈ (st2.bufs e.bo).fence_shared, x = F) := by
  rw [dmabufmgr_fence_buffer_objects] at h
  rw [if_neg (by simpa [List.isEmpty_iff] using hne)] at h
  obtain ⟨hbufs, -, -⟩ := Prod.mk.injEq .. ▸ h
  intro e he
  have hbufs2 : st2.bufs = (commitInstall F (commitClear st.bufs l) l).1 := by
    rw [← hbufs, commitInstall_map_clear]
  constructor
  · intro hs
    rw [hbufs2]
    exact (commitInstall_mem F l _ e he).1 hs
  · intro hs
    rw [hbufs2]
    refine ⟨(commitInstall_mem F l _ e he).2 hs, ?_⟩
    refine commitInstall_all_eq F l _ e.bo ?_
    obtain ⟨hsh, -⟩ := commitClear_clears l st.bufs e he hs
    rw [hsh]
    intro x hx
    cases hx

/-- Conclusion proved for claim C3 (amended): after reserve(L) and
commit(L, F), a successful reserve(L') collects F for an entry naming one
of L's buffers whenever that entry has exclusive intent or the buffer was
named by an exclusive-intent entry of L; a shared-intent entry against a
buffer that L touched only with shared intent collects at most the old
exclusive fence, not F. -/
def C3Concl (L Lp out3 : List Validate) (F : Nat) : Prop :=
  List.Forall₂ (fun e o => ∀ eL ∈ L, eL.bo = e.bo →
    (e.shared = false ∨ eL.shared = false) → F ∈ o.fences) Lp out3

/-- C3 amended: for every list L and fence F, after a successful
reserve(L) followed by commit(L, F), every subsequent successful
reserve(L') collects F for each entry naming one of L's buffers, provided
the entry's intent is exclusive or the buffer was committed through an
exclusive-intent entry of L; a shared-intent L' entry on a buffer that L
committed only as shared does not in general collect F. -/
theorem C3_amended_roundtrip (st st1 st2 st3 : MgrState)
    (L Lp out1 out2 out3 : List Validate) (wk1 wk3 : List Nat) (wk2 : List Nat)
    (F : Nat)
    (h1 : dmabufmgr_reserve_buffers st L = .ok st1 out1 wk1)
    (h2 : dmabufmgr_fence_buffer_objects (some F) out1 st1 = (st2, out2, wk2))
    (h3 : dmabufmgr_reserve_buffers st2 Lp = .ok st3 out3 wk3) :
    C3Concl L Lp out3 F := by
  obtain ⟨-, -, hout3⟩ := reserve_ok_spec st2 Lp st3 out3 wk3 h3
  subst hout3
  rw [C3Concl, List.forall₂_map_right_iff, List.forall₂_same]
  intro e _ eL hmemL hbo hint
  dsimp only
  obtain ⟨-, -, hout1⟩ := reserve_ok_spec st L st1 out1 wk1 h1
  have hLne : L ≠ [] := by
    intro habs
    subst habs
    cases hmemL
  have hout1ne : out1 ≠ [] := by
    rw [hout1]
    simpa using hLne
  have hmem1 : (⟨eL.bo, eL.shared, true, collectFences eL (st.bufs eL.bo)⟩ : Validate)
      ∈ out1 := by
    rw [hout1]
    exact List.mem_map.mpr ⟨eL, hmemL, rfl⟩
  have hinst := commit_installs F out1 st1 st2 out2 wk2 hout1ne h2 _ hmem1
  rw [← hbo]
  cases hseL : eL.shared with
  | true =>
    have hFsh : F ∈ (st2.bufs eL.bo).fence_shared := hinst.1 hseL
    cases hse : e.shared with
    | true =>
      rcases hint with hint1 | hint2
      · rw [hse] at hint1; cases hint1
      · rw [hseL] at hint2; cases hint2
    | false =>
      rw [collectFences_excl_nonempty e _ hse (by
        intro habs
        rw [habs] at hFsh
        cases hFsh)]
      exact hFsh
  | false =>
    obtain ⟨hexcl, hall⟩ := hinst.2 hseL
    cases hse : e.shared with
    | true =>
      rw [collectFences_shared e _ hse, exclFences, hexcl]
      exact List.mem_singleton.mpr rfl
    | false =>
      match hsh : (st2.bufs eL.bo).fence_shared with
      | [] =>
        rw [collectFences_excl_empty e _ hse hsh, exclFences, hexcl]
        exact List.mem_singleton.mpr rfl
      | x :: xs =>
        rw [collectFences_excl_nonempty e _ hse (by rw [hsh]; simp), hsh]
        have hx : x = F := hall x (by rw [hsh]; exact List.mem_cons_self x xs)
        rw [hx] at hsh ⊢
        exact List.mem_cons_self F xs

/-- Initial state for the C3 witness: buffer 0 with no fences. -/
def c3wst : MgrState := ⟨fun _ => ⟨false, 0, none, []⟩, 0⟩

/-- The committing list of the C3 witness: one exclusive-intent entry. -/
def c3wL : List Validate := [⟨0, false, false, []⟩]

/-- The re-reserving list of the C3 witness: one shared-intent entry. -/
def c3wLp : List Validate := [⟨0, true, false, []⟩]

/-- State projection of the first reserve of the C3 witness. -/
def c3wst1 : MgrState :=
  match dmabufmgr_reserve_buffers c3wst c3wL with
  | .ok s _ _ => s
  | _ => c3wst

/-- Entry projection of the first reserve of the C3 witness. -/
def c3wout1 : List Validate :=
  match dmabufmgr_reserve_buffers c3wst c3wL with
  | .ok _ o _ => o
  | _ => []

/-- Wake projection of the first reserve of the C3 witness. -/
def c3wwk1 : List Nat :=
  match dmabufmgr_reserve_buffers c3wst c3wL with
  | .ok _ _ w => w
  | _ => []

/-- The commit of fence 5 in the C3 witness run. -/
def c3wc : MgrState × List Validate × List Nat :=
  dmabufmgr_fence_buffer_objects (some 5) c3wout1 c3wst1

/-- State projection of the second reserve of the C3 witness. -/
def c3wst3 : MgrState :=
  match dmabufmgr_reserve_buffers c3wc.1 c3wLp with
  | .ok s _ _ => s
  | _ => c3wst

/-- Entry projection of the second reserve of the C3 witness. -/
def c3wout3 : List Validate :=
  match dmabufmgr_reserve_buffers c3wc.1 c3wLp with
  | .ok _ o _ => o
  | _ => []

/-- Wake projection of the second reserve of the C3 witness. -/
def c3wwk3 : List Nat :=
  match dmabufmgr_reserve_buffers c3wc.1 c3wLp with
  | .ok _ _ w => w
  | _ => []

/-- Witness for C3 amended: buffer 0 committed exclusively with fence 5 is
re-reserved by a shared-intent entry, which collects 5 (the committed
fence sits in the exclusive slot). -/
theorem C3_amended_roundtrip_witness :
    dmabufmgr_reserve_buffers c3wst c3wL = .ok c3wst1 c3wout1 c3wwk1 ∧
    dmabufmgr_fence_buffer_objects (some 5) c3wout1 c3wst1 =
      (c3wc.1, c3wc.2.1, c3wc.2.2) ∧
    dmabufmgr_reserve_buffers c3wc.1 c3wLp = .ok c3wst3 c3wout3 c3wwk3 ∧
    C3Concl c3wL c3wLp c3wout3 5 :=
  ⟨rfl, rfl, rfl,
   C3_amended_roundtrip c3wst c3wst1 c3wc.1 c3wst3 c3wL c3wLp c3wout1 c3wc.2.1
     c3wout3 c3wwk1 c3wwk3 c3wc.2.2 5 rfl rfl rfl⟩

/-- After a back-off, every output entry whose input was either flagged or
already cleared is cleared: flag down and no collected fences. -/
theorem backoff_entries (lst : List Validate) :
    ∀ (bufs : Nat → DmaBuf),
      (∀ e ∈ lst, e.reserved = true ∨ (e.reserved = false ∧ e.fences = [])) →
      ∀ o ∈ (dmabufmgr_backoff_reservation_locked bufs lst).2.1,
        o.reserved = false ∧ o.fences = [] := by
  induction lst with
  | nil => intro bufs _ o ho; cases ho
  | cons e rest ih =>
    intro bufs hin o ho
    rw [dmabufmgr_backoff_reservation_locked] at ho
    by_cases hres : e.reserved = true
    · rw [if_pos hres] at ho
      rcases List.mem_cons.mp ho with rfl | hmem
      · exact ⟨rfl, rfl⟩
      · exact ih _ (fun x hx => hin x (List.mem_cons_of_mem e hx)) o hmem
    · rw [if_neg hres] at ho
      rcases List.mem_cons.mp ho with rfl | hmem
      · rcases hin o (List.mem_cons_self o rest) with h1 | h2
        · exact absurd h1 hres
        · exact h2
      · exact ih bufs (fun x hx => hin x (List.mem_cons_of_mem e hx)) o hmem

/-- The back-off wakes exactly the buffers of the flagged entries, in list
order. -/
theorem backoff_wakes (lst : List Validate) :
    ∀ (bufs : Nat → DmaBuf),
      (dmabufmgr_backoff_reservation_locked bufs lst).2.2 =
        (lst.filter fun e => e.reserved).map fun e => e.bo := by
  induction lst with
  | nil => intro bufs; rfl
  | cons e rest ih =>
    intro bufs
    rw [dmabufmgr_backoff_reservation_locked]
    by_cases hres : e.reserved = true
    · rw [if_pos hres]
      simp [List.filter_cons, hres, ih]
    · rw [if_neg hres]
      simp only [Bool.not_eq_true] at hres
      simp [List.filter_cons, hres, ih]

/-- The back-off never sets a reserved flag: a buffer unreserved before
stays unreserved. -/
theorem backoff_never_reserves (lst : List Validate) :
    ∀ (bufs : Nat → DmaBuf) (b : Nat), (bufs b).reserved = false →
      ((dmabufmgr_backoff_reservation_locked bufs lst).1 b).reserved = false := by
  induction lst with
  | nil => exact fun bufs b h => h
  | cons e rest ih =>
    intro bufs b h
    rw [dmabufmgr_backoff_reservation_locked]
    by_cases hres : e.reserved = true
    · rw [if_pos hres]
      refine ih _ b ?_
      by_cases hb : b = e.bo
      · subst hb; rw [updBuf_same]
      · rwa [updBuf_other _ _ _ _ hb]
    · rw [if_neg hres]
      exact ih bufs b h

/-- The back-off clears the reserved flag of every buffer named by a
flagged entry. -/
theorem backoff_clears (lst : List Validate) :
    ∀ (bufs : Nat → DmaBuf) (b : Nat),
      (∃ e ∈ lst, e.reserved = true ∧ e.bo = b) →
      ((dmabufmgr_backoff_reservation_locked bufs lst).1 b).reserved = false := by
  induction lst with
  | nil => intro bufs b ⟨e, he, _⟩; cases he
  | cons e rest ih =>
    intro bufs b ⟨x, hx, hxres, hxbo⟩
    rw [dmabufmgr_backoff_reservation_locked]
    rcases List.mem_cons.mp hx with rfl | hmem
    · rw [if_pos hxres]
      dsimp only
      subst hxbo
      have hcleared : ((updBuf bufs x.bo { bufs x.bo with reserved := false }) x.bo).reserved
          = false := by rw [updBuf_same]
      exact backoff_never_reserves rest _ x.bo hcleared
    · by_cases hres : e.reserved = true
      · rw [if_pos hres]
        exact ih _ b ⟨x, hmem, hxres, hxbo⟩
      · rw [if_neg hres]
        exact ih bufs b ⟨x, hmem, hxres, hxbo⟩

/-- A buffer reserved after the back-off was reserved before it. -/
theorem backoff_mono (lst : List Validate) :
    ∀ (bufs : Nat → DmaBuf) (b : Nat),
      ((dmabufmgr_backoff_reservation_locked bufs lst).1 b).reserved = true →
      (bufs b).reserved = true := by
  induction lst with
  | nil => exact fun bufs b h => h
  | cons e rest ih =>
    intro bufs b h
    rw [dmabufmgr_backoff_reservation_locked] at h
    by_cases hres : e.reserved = true
    · rw [if_pos hres] at h
      have := ih _ b h
      by_cases hb : b = e.bo
      · subst hb; rw [updBuf_same] at this; cases this
      · rwa [updBuf_other _ _ _ _ hb] at this
    · rw [if_neg hres] at h
      exact ih bufs b h

/-- The back-off never touches any buffer's attached fences. -/
theorem backoff_fences (lst : List Validate) :
    ∀ (bufs : Nat → DmaBuf),
      sameFences (dmabufmgr_backoff_reservation_locked bufs lst).1 bufs := by
  induction lst with
  | nil => exact fun bufs => sameFences_refl bufs
  | cons e rest ih =>
    intro bufs
    rw [dmabufmgr_backoff_reservation_locked]
    by_cases hres : e.reserved = true
    · rw [if_pos hres]
      refine sameFences_trans (ih _) ?_
      intro x
      by_cases hb : x = e.bo
      · subst hb; rw [updBuf_same]; exact ⟨rfl, rfl⟩
      · rw [updBuf_other _ _ _ _ hb]; exact ⟨rfl, rfl⟩
    · rw [if_neg hres]
      exact ih bufs

/-- A buffer that is free or already held under the caller's own ticket is
reserved successfully. -/
theorem reserve_locked_ok_of_inv (bo : DmaBuf) (s : Nat)
    (h : bo.reserved = false ∨ bo.ticket = s) :
    (dma_buf_reserve_locked bo s).1 = 0 := by
  by_cases hres : bo.reserved = false
  · rw [reserve_locked_free bo s hres]
  · replace hres : bo.reserved = true := by simpa using hres
    rcases h with h1 | h2
    · rw [h1] at hres; cases hres
    · rw [reserve_locked_mine bo s hres h2]

/-- The reserve loop walking a prefix of acquirable entries and then
reaching a shared-intent entry whose buffer already holds
DMA_BUF_MAX_SHARED_FENCE shared fences: the whole batch is backed off —
every entry cleared, every buffer this batch reserved released with its
waiters woken, fences untouched — and -EINVAL is returned. -/
theorem reserveGo_capacity (val_seq : Nat) (base : Nat → DmaBuf) :
    ∀ (l1 : List Validate) (bufs : Nat → DmaBuf) (done : List Validate)
      (ef : Validate) (l2 : List Validate),
      sameFences bufs base →
      (∀ e ∈ l1 ++ ef :: l2,
        (bufs e.bo).reserved = false ∨ (bufs e.bo).ticket = val_seq) →
      (∀ e ∈ l1 ++ ef :: l2, e.reserved = false ∧ e.fences = []) →
      (∀ d ∈ done, d.reserved = true) →
      (∀ b, (bufs b).reserved = true →
        (base b).reserved = true ∨ ∃ d ∈ done, d.bo = b) →
      ef.shared = true →
      (base ef.bo).fence_shared.length = DMA_BUF_MAX_SHARED_FENCE →
      (∀ e ∈ l1, e.shared = true →
        (base e.bo).fence_shared.length ≠ DMA_BUF_MAX_SHARED_FENCE) →
      ∃ st1 out wk,
        reserveGo val_seq bufs done (l1 ++ ef :: l2) = .err (-EINVAL) st1 out wk ∧
        (∀ o ∈ out, o.reserved = false ∧ o.fences = []) ∧
        (∀ b, (base b).reserved = false → (st1.bufs b).reserved = false) ∧
        sameFences st1.bufs base ∧
        wk = done.map (fun d => d.bo) ++ l1.map (fun e => e.bo) ++ [ef.bo] := by
  intro l1
  induction l1 with
  | nil =>
    intro bufs done ef l2 hsf hinv1 hclr hdone hinv5 hef hcap hok
    rw [List.nil_append, reserveGo]
    have hr0 : (dma_buf_reserve_locked (bufs ef.bo) val_seq).1 = 0 :=
      reserve_locked_ok_of_inv _ _ (hinv1 ef (List.mem_cons_self ef l2))
    have hlen : (dma_buf_reserve_locked (bufs ef.bo) val_seq).2.fence_shared.length =
        (base ef.bo).fence_shared.length := by
      rw [(reserve_locked_fences _ _).2, (hsf ef.bo).2]
    rw [if_pos (by simp [hr0]), if_pos (by simp [hef, hlen, hcap])]
    refine ⟨_, _, _, rfl, ?_, ?_, ?_, ?_⟩
    · refine backoff_entries _ _ ?_
      intro x hx
      rcases List.mem_append.mp hx with hxd | hxc
      · exact Or.inl (hdone x hxd)
      · rcases List.mem_cons.mp hxc with rfl | hx2
        · exact Or.inl rfl
        · exact Or.inr (hclr x (List.mem_cons_of_mem ef hx2))
    · intro b hbase
      by_cases hb1 : ((updBuf bufs ef.bo
          (dma_buf_reserve_locked (bufs ef.bo) val_seq).2) b).reserved = true
      · by_cases hbo : b = ef.bo
        · subst hbo
          refine backoff_clears _ _ ef.bo
            ⟨{ ef with reserved := true }, ?_, rfl, rfl⟩
          exact List.mem_append_right _ (List.mem_cons_self _ _)
        · rw [updBuf_other _ _ _ _ hbo] at hb1
          rcases hinv5 b hb1 with h5 | ⟨d, hd, hdb⟩
          · rw [h5] at hbase; cases hbase
          · refine backoff_clears _ _ b ⟨d, List.mem_append_left _ hd, hdone d hd, hdb⟩
      · replace hb1 : ((updBuf bufs ef.bo
            (dma_buf_reserve_locked (bufs ef.bo) val_seq).2) b).reserved = false := by
          simpa using hb1
        exact backoff_never_reserves _ _ b hb1
    · refine sameFences_trans (backoff_fences _ _) ?_
      refine sameFences_trans ?_ hsf
      intro x
      by_cases hx : x = ef.bo
      · subst hx
        rw [updBuf_same]
        exact reserve_locked_fences _ _
      · rw [updBuf_other _ _ _ _ hx]
        exact ⟨rfl, rfl⟩
    · rw [backoff_wakes]
      rw [List.filter_append, List.filter_cons]
      rw [List.filter_eq_self.mpr (fun d hd => by simp [hdone d hd])]
      rw [show (List.filter (fun e => e.reserved) l2) = [] from
        List.filter_eq_nil_iff.mpr (fun x hx => by
          simp [(hclr x (List.mem_cons_of_mem ef hx)).1])]
      simp
  | cons e l1' ih =>
    intro bufs done ef l2 hsf hinv1 hclr hdone hinv5 hef hcap hok
    rw [List.cons_append, reserveGo]
    have hr0 : (dma_buf_reserve_locked (bufs e.bo) val_seq).1 = 0 :=
      reserve_locked_ok_of_inv _ _
        (hinv1 e (List.mem_append_left _ (List.mem_cons_self e l1')))
    have hlen : (dma_buf_reserve_locked (bufs e.bo) val_seq).2.fence_shared.length =
        (base e.bo).fence_shared.length := by
      rw [(reserve_locked_fences _ _).2, (hsf e.bo).2]
    have hcapf : (e.shared &&
        ((dma_buf_reserve_locked (bufs e.bo) val_seq).2.fence_shared.length
          == DMA_BUF_MAX_SHARED_FENCE)) = false := by
      by_cases hse : e.shared = true
      · have hne := hok e (List.mem_cons_self e l1') hse
        simp [hse, hlen, hne]
      · replace hse : e.shared = false := by simpa using hse
        simp [hse]
    rw [if_pos (by simp [hr0]), if_neg (by simp [hcapf])]
    have hticket := reserve_locked_ok_state (bufs e.bo) val_seq hr0
    obtain ⟨st1, out, wk, hgo, hout, hres, hsf1, hwk⟩ :=
      ih (updBuf bufs e.bo (dma_buf_reserve_locked (bufs e.bo) val_seq).2)
        (done ++ [⟨e.bo, e.shared, true,
          collectFences e (dma_buf_reserve_locked (bufs e.bo) val_seq).2⟩])
        ef l2
        (by
          refine sameFences_trans ?_ hsf
          intro x
          by_cases hx : x = e.bo
          · subst hx
            rw [updBuf_same]
            exact reserve_locked_fences _ _
          · rw [updBuf_other _ _ _ _ hx]
            exact ⟨rfl, rfl⟩)
        (by
          intro x hx
          by_cases hxb : x.bo = e.bo
          · rw [hxb, updBuf_same]
            exact Or.inr hticket.2
          · rw [updBuf_other _ _ _ _ hxb]
            exact hinv1 x (List.mem_append.mpr (by
              rcases List.mem_append.mp hx with h1 | h2
              · exact Or.inl (List.mem_cons_of_mem e h1)
              · exact Or.inr h2)))
        (fun x hx => hclr x (List.mem_append.mpr (by
          rcases List.mem_append.mp hx with h1 | h2
          · exact Or.inl (List.mem_cons_of_mem e h1)
          · exact Or.inr h2)))
        (by
          intro d hd
          rcases List.mem_append.mp hd with h1 | h2
          · exact hdone d h1
          · rw [List.mem_singleton.mp h2])
        (by
          intro b hb
          by_cases hbo : b = e.bo
          · subst hbo
            exact Or.inr ⟨⟨e.bo, e.shared, true,
              collectFences e (dma_buf_reserve_locked (bufs e.bo) val_seq).2⟩,
              List.mem_append_right _ (List.mem_singleton.mpr rfl), rfl⟩
          · rw [updBuf_other _ _ _ _ hbo] at hb
            rcases hinv5 b hb with h5 | ⟨d, hd, hdb⟩
            · exact Or.inl h5
            · exact Or.inr ⟨d, List.mem_append_left _ hd, hdb⟩)
        hef hcap
        (fun x hx => hok x (List.mem_cons_of_mem e hx))
    refine ⟨st1, out, wk, hgo, hout, hres, hsf1, ?_⟩
    rw [hwk]
    simp [List.map_append]

/-- Conclusion proved for claim C5: the reserve fails with -EINVAL after a
full back-off — every entry's reserved_flag and collected count cleared,
every buffer of the list left unreserved with the batch's reservations
released and their waiters woken (one wake per prefix entry plus the
failing one), and no buffer's fences touched. -/
def C5Concl (st : MgrState) (l l1 : List Validate) (ef : Validate) : Prop :=
  ∃ st1 out wk,
    dmabufmgr_reserve_buffers st l = .err (-EINVAL) st1 out wk ∧
    (∀ o ∈ out, o.reserved = false ∧ o.num_fences = 0) ∧
    (∀ e ∈ l, (st1.bufs e.bo).reserved = false) ∧
    sameFences st1.bufs st.bufs ∧
    wk = l1.map (fun e => e.bo) ++ [ef.bo]

/-- C5: if dmabufmgr_reserve_buffers reaches a shared-intent entry whose
buffer already holds DMA_BUF_MAX_SHARED_FENCE shared fences — the prefix
before it being acquirable and not itself capacity-violating — then the
whole batch is backed off: every entry's reserved_flag and collected count
are cleared, every buffer reserved by the batch is released and its
waiters woken, and -EINVAL is returned; no buffer remains reserved by the
batch. -/
theorem C5_capacity_backoff (st : MgrState) (l l1 l2 : List Validate) (ef : Validate)
    (hsplit : l = l1 ++ ef :: l2)
    (hunres : ∀ e ∈ l, (st.bufs e.bo).reserved = false)
    (hef : ef.shared = true)
    (hcap : (st.bufs ef.bo).fence_shared.length = DMA_BUF_MAX_SHARED_FENCE)
    (hok : ∀ e ∈ l1, e.shared = true →
      (st.bufs e.bo).fence_shared.length ≠ DMA_BUF_MAX_SHARED_FENCE) :
    C5Concl st l l1 ef := by
  subst hsplit
  rw [C5Concl, dmabufmgr_reserve_buffers, if_neg (by simp)]
  rw [List.map_append, List.map_cons]
  obtain ⟨st1, out, wk, hgo, hout, hres, hsf, hwk⟩ :=
    reserveGo_capacity (st.counter + 1) st.bufs
      (l1.map fun e => { e with reserved := false, fences := [] })
      st.bufs []
      ⟨ef.bo, ef.shared, false, []⟩
      (l2.map fun e => { e with reserved := false, fences := [] })
      (sameFences_refl _)
      (by
        intro x hx
        refine Or.inl ?_
        rcases List.mem_append.mp hx with h1 | h2
        · obtain ⟨y, hy, rfl⟩ := List.mem_map.mp h1
          exact hunres y (List.mem_append_left _ hy)
        · rcases List.mem_cons.mp h2 with rfl | h3
          · exact hunres ef (List.mem_append_right _ (List.mem_cons_self _ _))
          · obtain ⟨y, hy, rfl⟩ := List.mem_map.mp h3
            exact hunres y (List.mem_append_right _ (List.mem_cons_of_mem _ hy)))
      (by
        intro x hx
        rcases List.mem_append.mp hx with h1 | h2
        · obtain ⟨y, hy, rfl⟩ := List.mem_map.mp h1
          exact ⟨rfl, rfl⟩
        · rcases List.mem_cons.mp h2 with rfl | h3
          · exact ⟨rfl, rfl⟩
          · obtain ⟨y, hy, rfl⟩ := List.mem_map.mp h3
            exact ⟨rfl, rfl⟩)
      (fun d hd => absurd hd (List.not_mem_nil d))
      (fun b hb => Or.inl hb)
      hef hcap
      (by
        intro x hx hxs
        obtain ⟨y, hy, rfl⟩ := List.mem_map.mp hx
        exact hok y hy hxs)
  refine ⟨st1, out, wk, hgo, ?_, ?_, hsf, ?_⟩
  · intro o ho
    obtain ⟨h1, h2⟩ := hout o ho
    exact ⟨h1, by simp [Validate.num_fences, h2]⟩
  · intro e he
    exact hres e.bo (hunres e he)
  · rw [hwk]
    simp [List.map_map]

/-- Initial state for the C5 witness: buffer 1 full at
DMA_BUF_MAX_SHARED_FENCE shared fences, buffer 0 empty. -/
def c5st : MgrState :=
  ⟨fun b => if b = 1 then ⟨false, 0, none, [1, 2, 3, 4, 5, 6, 7, 8]⟩
   else ⟨false, 0, none, []⟩, 0⟩

/-- The acquirable prefix of the C5 witness list. -/
def c5l1 : List Validate := [⟨0, false, false, []⟩]

/-- The failing shared-intent entry of the C5 witness, against the full
buffer 1. -/
def c5ef : Validate := ⟨1, true, false, []⟩

/-- The C5 witness list: the prefix followed by the failing entry. -/
def c5l : List Validate := c5l1 ++ c5ef :: []

/-- Witness for C5 at the concrete state c5st and list c5l. -/
theorem C5_capacity_backoff_witness :
    (c5l = c5l1 ++ c5ef :: []) ∧
    (∀ e ∈ c5l, (c5st.bufs e.bo).reserved = false) ∧
    c5ef.shared = true ∧
    (c5st.bufs c5ef.bo).fence_shared.length = DMA_BUF_MAX_SHARED_FENCE ∧
    (∀ e ∈ c5l1, e.shared = true →
      (c5st.bufs e.bo).fence_shared.length ≠ DMA_BUF_MAX_SHARED_FENCE) ∧
    C5Concl c5st c5l c5l1 c5ef :=
  ⟨rfl, by decide, rfl, by decide, by decide,
   C5_capacity_backoff c5st c5l c5l1 [] c5ef rfl (by decide) rfl (by decide) (by decide)⟩

end DmaSync
